import Mathlib

/-!
Verification development for the actual-currents tidal service.

The embedded components, each translated from the backend source:

* the bounding-box query engine of `app/api/currents.py` (`get_mesh_data`):
  node selection by closed-interval mask, node-count guards, triangle
  filtering by three-way membership, and index compaction/remapping;
* the harmonic synthesis engine of `app/core/tidal_calc.py`
  (`predict_currents` and `_get_ttide_indices`);
* the offline builder's element remapping of `scripts/convert_to_zarr.py`
  (`remap_elements`), including numpy's wrap-around semantics for negative
  fancy indices and the raising behaviour of reductions over empty arrays.

Latitudes/longitudes are embedded as rationals (the float comparisons in
the source act on ordinary numeric values; the claims are order-theoretic),
and the harmonic synthesis over the reals.
-/

namespace ActualCurrents

/-! ### Query engine: node selection (currents.py, get_mesh_data) -/

/-- A mesh node's coordinates, as stored in the `lat` / `lon` arrays. -/
structure Node where
  lat : ℚ
  lon : ℚ
deriving DecidableEq, Repr

/-- Bounding-box query parameters `min_lat, max_lat, min_lon, max_lon`. -/
structure BBox where
  min_lat : ℚ
  max_lat : ℚ
  min_lon : ℚ
  max_lon : ℚ
deriving DecidableEq, Repr

/-- The per-node mask `(lat >= min_lat) & (lat <= max_lat) & (lon >= min_lon)
& (lon <= max_lon)` of `get_mesh_data` (lines 65-67). -/
def bbox_mask (b : BBox) (p : Node) : Bool :=
  decide (b.min_lat ≤ p.lat) && decide (p.lat ≤ b.max_lat) &&
    decide (b.min_lon ≤ p.lon) && decide (p.lon ≤ b.max_lon)

/-- Mask value of position `i` of the node arrays; positions outside the
arrays do not exist and are never selected. -/
def maskAt (nodes : List Node) (b : BBox) (i : ℕ) : Bool :=
  match nodes[i]? with
  | some p => bbox_mask b p
  | none => false

/-- Source line 85, `node_indices = np.where(bbox_mask.values)[0]` (line 85): the ascending
list of array positions whose mask bit is set. -/
def node_indices (nodes : List Node) (b : BBox) : List ℕ :=
  (List.range nodes.length).filter (maskAt nodes b)

/-- A triangle (`elements` row): three vertex indices into the node arrays. -/
structure Tri where
  a : ℕ
  b : ℕ
  c : ℕ
deriving DecidableEq, Repr

/-- The three-way vectorized membership test of lines 103-106:
`np.isin(els[:,0], node_indices) & np.isin(els[:,1], ...) & np.isin(els[:,2], ...)`. -/
def tri_mask (sel : List ℕ) (t : Tri) : Bool :=
  decide (t.a ∈ sel) && decide (t.b ∈ sel) && decide (t.c ∈ sel)

/-- Source line 108, `valid_elements = all_elements[valid_mask]`: the stored
triangles all three of whose vertices are selected, in storage order. -/
def valid_elements (sel : List ℕ) (elements : List Tri) : List Tri :=
  elements.filter (tri_mask sel)

/-- Source line 114,
`node_idx_mapping = {orig: new for new, orig in enumerate(node_indices)}`. `node_indices` has no duplicate entries, so the dictionary maps
each selected original index to its position in `node_indices`. -/
def node_idx_mapping (sel : List ℕ) (orig : ℕ) : ℕ :=
  sel.indexOf orig

/-- The vectorized remap of one triangle through `node_idx_mapping`
(line 119). -/
def remap_tri (sel : List ℕ) (t : Tri) : Tri :=
  ⟨node_idx_mapping sel t.a, node_idx_mapping sel t.b, node_idx_mapping sel t.c⟩

/-- Query-time failures of `get_mesh_data`: HTTP 404 when no node matches
(line 76) and HTTP 400 with the actual node count when the match count
exceeds the 500 000 ceiling (lines 78-82). -/
inductive QueryError where
  | emptyResult : QueryError
  | resultTooLarge : ℕ → QueryError
deriving DecidableEq, Repr

/-- The node-count ceiling `500_000` of line 78. -/
def NODE_CEILING : ℕ := 500000

/-- The bounding-box sub-mesh produced by `get_mesh_data`: the selected
node positions (whose order is the compact node order of the response) and
the remapped triangle list. -/
structure MeshResult where
  nodeIdx : List ℕ
  triangles : List Tri
deriving DecidableEq, Repr

/-- The query part of `get_mesh_data` (lines 63-123): select nodes by the
bounding-box mask, fail when zero or more than 500 000 nodes match,
filter triangles to those with all three vertices selected, and remap
their indices to compact positions. -/
def get_mesh_query (nodes : List Node) (elements : List Tri) (b : BBox) :
    Except QueryError MeshResult :=
  let sel := node_indices nodes b
  if sel.length = 0 then .error .emptyResult
  else if NODE_CEILING < sel.length then .error (.resultTooLarge sel.length)
  else .ok ⟨sel, (valid_elements sel elements).map (remap_tri sel)⟩

/-! ### Harmonic synthesis engine (tidal_calc.py) -/

/-- The map `_STANDARD_CONST_INDICES`: the hardcoded ADCIRC-to-ttide mapping for the
standard 8 constituents (tidal_calc.py lines 19-28). -/
def STANDARD_CONST_INDICES : List (String × ℕ) :=
  [("M2", 0), ("S2", 1), ("N2", 2), ("K1", 3),
   ("O1", 4), ("P1", 5), ("M4", 6), ("M6", 7)]

/-- Dictionary lookup `name in _STANDARD_CONST_INDICES` /
`_STANDARD_CONST_INDICES[name]`. -/
def lookupStandard (name : String) : Option ℕ :=
  STANDARD_CONST_INDICES.lookup name

/-- One iteration of the loop of `_get_ttide_indices` (lines 39-45): append
the mapped index when the name is in the standard mapping, else append
`len(indices)`, the sequential fallback (with a printed warning). -/
def ttide_step (acc : List ℕ) (name : String) : List ℕ :=
  match lookupStandard name with
  | some i => acc ++ [i]
  | none => acc ++ [acc.length]

/-- Source lines 31-47, `_get_ttide_indices(constituent_names)`: a total function;
it raises nothing for any input list of names. -/
def get_ttide_indices (constituent_names : List String) : List ℕ :=
  constituent_names.foldl ttide_step []

/-- One nodal-correction triple as returned by `ttide.t_vuf` for a single
constituent: `v` and `u` in cycles, `f` dimensionless (lines 99-102). -/
structure NodalCorr where
  v : ℝ
  u : ℝ
  f : ℝ

/-- Degrees to radians, `np.deg2rad`. -/
noncomputable def deg2rad (x : ℝ) : ℝ :=
  x * Real.pi / 180

/-- The `u`-contribution of constituent `i` at one node (lines 135, 139):
`f[i] * u_amp[node, i] * cos(v_rad[i] + omega_t[i] + u_rad[i] - u_phase_rad[node, i])`
with `v_rad = 2π·v`, `u_rad = 2π·u` (lines 111-112), `omega_t = ω·t`
(line 120) and the phase converted from degrees (line 123). -/
noncomputable def const_term_u (u_amp u_phase : ℕ → ℕ → ℝ) (tidefreqs : ℕ → ℝ)
    (corr : ℕ → NodalCorr) (t_seconds : ℝ) (node i : ℕ) : ℝ :=
  (corr i).f * u_amp node i *
    Real.cos (2 * Real.pi * (corr i).v + tidefreqs i * t_seconds +
      2 * Real.pi * (corr i).u - deg2rad (u_phase node i))

/-- The `v`-contribution of constituent `i` at one node (lines 136, 140). -/
noncomputable def const_term_v (v_amp v_phase : ℕ → ℕ → ℝ) (tidefreqs : ℕ → ℝ)
    (corr : ℕ → NodalCorr) (t_seconds : ℝ) (node i : ℕ) : ℝ :=
  (corr i).f * v_amp node i *
    Real.cos (2 * Real.pi * (corr i).v + tidefreqs i * t_seconds +
      2 * Real.pi * (corr i).u - deg2rad (v_phase node i))

/-- Function `predict_currents` at one node (lines 126-142): starting from
`u_velocity = v_velocity = 0`, the loop `for i in range(len(constituent_names))`
accumulates the constituent contributions in the fixed constituent order.
Amplitude/phase arrays are indexed `(node, constituent)`; `corr` is the
nodal-correction provider output, computed once per request from the instant
and the reference latitude and shared by every node; `t_seconds` is the
signed number of seconds from `REFERENCE_TIME = 2000-01-01T00:00:00Z` to the
prediction instant (lines 114-116). -/
noncomputable def predict_currents (n_const : ℕ)
    (u_amp v_amp u_phase v_phase : ℕ → ℕ → ℝ) (tidefreqs : ℕ → ℝ)
    (corr : ℕ → NodalCorr) (t_seconds : ℝ) (node : ℕ) : ℝ × ℝ :=
  (List.range n_const).foldl
    (fun acc i =>
      (acc.1 + const_term_u u_amp u_phase tidefreqs corr t_seconds node i,
       acc.2 + const_term_v v_amp v_phase tidefreqs corr t_seconds node i))
    (0, 0)

/-- The full serving path of one `/mesh` request (currents.py lines 63-196):
the bounding-box query followed by harmonic synthesis over the selected
nodes. The nodal-correction provider (`t_vuf`) is a pure function of the
instant and the reference latitude; the response carries the compact node
order, the remapped triangles, and the per-node `(u, v)` velocities. -/
noncomputable def serve_request (nodes : List Node) (elements : List Tri)
    (u_amp v_amp u_phase v_phase : ℕ → ℕ → ℝ) (tidefreqs : ℕ → ℝ)
    (n_const : ℕ) (provider : ℝ → ℝ → ℕ → NodalCorr) (t_seconds lat : ℝ)
    (b : BBox) : Except QueryError (MeshResult × List (ℝ × ℝ)) :=
  match get_mesh_query nodes elements b with
  | .error e => .error e
  | .ok r =>
    .ok (r, r.nodeIdx.map
      (predict_currents n_const u_amp v_amp u_phase v_phase tidefreqs
        (provider t_seconds lat) t_seconds))

/-! ### Spatial index builder: element remapping (convert_to_zarr.py) -/

/-- Builder-time failures of `remap_elements`: numpy's `IndexError` when a
fancy index lies outside `[-N, N)`, the explicit `ValueError` of line 217
when a remapped index is out of range, and the `ValueError` that
`elements_sorted.min()` itself raises on a zero-size array (line 216). -/
inductive BuildError where
  | fancyIndexError : BuildError
  | invalidRemapped : BuildError
  | emptyReduction : BuildError
deriving DecidableEq, Repr

/-- A raw connectivity row: three (possibly negative, after the unconditional
1-based→0-based subtraction of line 286) vertex indices. -/
structure RawTri where
  a : ℤ
  b : ℤ
  c : ℤ
deriving DecidableEq, Repr

/-- The three entries of a connectivity row. -/
def rawEntries (t : RawTri) : List ℤ :=
  [t.a, t.b, t.c]

/-- Array `inverse_mapping` (lines 208-210): an `np.zeros(N, dtype=np.int32)`
array updated by `inverse_mapping[orig_idx] = new_idx` for
`new_idx, orig_idx in enumerate(spatial_sort_idx)`. (numpy would raise on an
`orig_idx ≥ N`; in every claim below `spatial_sort_idx` is a permutation of
`range N`, where each `orig_idx < N`, so modelling the update as an in-range
store loses nothing.) -/
def inverse_mapping (spatial_sort_idx : List ℕ) : List ℤ :=
  spatial_sort_idx.enum.foldl (fun inv p => inv.set p.2 (p.1 : ℤ))
    (List.replicate spatial_sort_idx.length 0)

/-- One numpy gather `a[e]` for an integer index already known to lie in
`[-len(a), len(a))`: a negative index wraps to `a[len(a) + e]`. -/
def np_take (a : List ℤ) (e : ℤ) : ℤ :=
  if e < 0 then a.getD ((a.length : ℤ) + e).toNat 0 else a.getD e.toNat 0

/-- Whether an integer fancy index is out of bounds for an array of length
`n` (numpy raises `IndexError` for these). -/
def npOOB (n : ℕ) (e : ℤ) : Bool :=
  decide (e < -(n : ℤ)) || decide ((n : ℤ) ≤ e)

/-- The gather `elements_sorted = inverse_mapping[elements_nc]` (line 213)
in the in-bounds case: every entry looked up through `inverse_mapping`, a
negative entry wrapping around. -/
def gather_elements (elements_nc : List RawTri) (inv : List ℤ) : List RawTri :=
  elements_nc.map (fun t => ⟨np_take inv t.a, np_take inv t.b, np_take inv t.c⟩)

/-- Function `remap_elements(elements_nc, spatial_sort_idx)` (lines 194-221):
`elements_sorted = inverse_mapping[elements_nc]` gathers every entry through
`inverse_mapping` (raising `IndexError` iff some entry lies outside
`[-N, N)`, wrapping negative entries); then the validation
`elements_sorted.min() < 0 or elements_sorted.max() >= N` raises `ValueError`
— where `.min()`/`.max()` themselves raise on a zero-size array
(`elements_sorted` is empty exactly when `elements_nc` is). The min/max
test is rendered as the equivalent "some entry `< 0` or `≥ N`". -/
def remap_elements (elements_nc : List RawTri) (spatial_sort_idx : List ℕ) :
    Except BuildError (List RawTri) :=
  if elements_nc.any (fun t =>
      (rawEntries t).any (npOOB (inverse_mapping spatial_sort_idx).length)) then
    .error .fancyIndexError
  else if gather_elements elements_nc (inverse_mapping spatial_sort_idx) = [] then
    .error .emptyReduction
  else if (gather_elements elements_nc (inverse_mapping spatial_sort_idx)).any
      (fun t => (rawEntries t).any
        (fun e => decide (e < 0) || decide ((spatial_sort_idx.length : ℤ) ≤ e))) then
    .error .invalidRemapped
  else .ok (gather_elements elements_nc (inverse_mapping spatial_sort_idx))

/-! ### Helper lemmas: node selection -/

theorem mem_node_indices {nodes : List Node} {b : BBox} {i : ℕ} :
    i ∈ node_indices nodes b ↔ ∃ p, nodes[i]? = some p ∧ bbox_mask b p = true := by
  unfold node_indices
  rw [List.mem_filter, List.mem_range]
  unfold maskAt
  cases h : nodes[i]? with
  | none =>
    simp only [h]
    constructor
    · rintro ⟨_, hf⟩; exact absurd hf (by simp)
    · rintro ⟨p, hp, _⟩; exact absurd hp (by simp)
  | some p =>
    have hlen : i < nodes.length := by
      have := List.getElem?_eq_some.mp h
      exact this.1
    simp only [h]
    constructor
    · rintro ⟨_, hm⟩; exact ⟨p, rfl, hm⟩
    · rintro ⟨q, hq, hm⟩
      obtain rfl : p = q := by injection hq
      exact ⟨hlen, hm⟩

theorem bbox_mask_iff {b : BBox} {p : Node} :
    bbox_mask b p = true ↔
      b.min_lat ≤ p.lat ∧ p.lat ≤ b.max_lat ∧ b.min_lon ≤ p.lon ∧ p.lon ≤ b.max_lon := by
  unfold bbox_mask
  simp [and_assoc]

theorem node_indices_sorted (nodes : List Node) (b : BBox) :
    List.Sorted (· < ·) (node_indices nodes b) :=
  (List.sorted_lt_range nodes.length).filter (maskAt nodes b)

theorem node_indices_nodup (nodes : List Node) (b : BBox) :
    (node_indices nodes b).Nodup :=
  (List.nodup_range nodes.length).filter (maskAt nodes b)

theorem get_mesh_query_ok_iff {nodes : List Node} {elements : List Tri} {b : BBox}
    {r : MeshResult} :
    get_mesh_query nodes elements b = .ok r ↔
      (node_indices nodes b).length ≠ 0 ∧
      ¬ NODE_CEILING < (node_indices nodes b).length ∧
      r = ⟨node_indices nodes b,
        (valid_elements (node_indices nodes b) elements).map
          (remap_tri (node_indices nodes b))⟩ := by
  simp only [get_mesh_query]
  split_ifs with h1 h2 <;> simp_all [eq_comm]

/-- Claim C5: `get_mesh_data` fails with `EmptyResult` (HTTP 404) iff zero
nodes match the box; it fails with `ResultTooLarge` carrying count `n`
(HTTP 400) iff `n` is the actual match count and `n > 500000`; and it fails
for neither reason iff the match count lies in `[1, 500000]`. -/
theorem mesh_query_node_count_guards (nodes : List Node) (elements : List Tri) (b : BBox) :
    (get_mesh_query nodes elements b = .error .emptyResult ↔
      (node_indices nodes b).length = 0) ∧
    (∀ n : ℕ, get_mesh_query nodes elements b = .error (.resultTooLarge n) ↔
      n = (node_indices nodes b).length ∧ NODE_CEILING < n) ∧
    ((∃ r, get_mesh_query nodes elements b = .ok r) ↔
      1 ≤ (node_indices nodes b).length ∧ (node_indices nodes b).length ≤ NODE_CEILING) := by
  refine ⟨?_, fun n => ?_, ?_⟩ <;>
    simp only [get_mesh_query] <;> split_ifs with h1 h2 <;> simp_all [NODE_CEILING]
  · omega
  · exact List.length_pos.mpr h1

/-- Claim C2: for a bounding box within the validated ranges, array
position `i` is a selected node iff it exists and its coordinates satisfy
the closed inequalities `min_lat ≤ lat ≤ max_lat` and `min_lon ≤ lon ≤
max_lon` (no wraparound handling); consequently every node index in a
successful query result satisfies those inequalities. -/
theorem node_selection_closed_box (nodes : List Node) (elements : List Tri) (b : BBox)
    (hv : -90 ≤ b.min_lat ∧ b.min_lat ≤ 90 ∧ -90 ≤ b.max_lat ∧ b.max_lat ≤ 90 ∧
      -180 ≤ b.min_lon ∧ b.min_lon ≤ 180 ∧ -180 ≤ b.max_lon ∧ b.max_lon ≤ 180) :
    (∀ i : ℕ, i ∈ node_indices nodes b ↔ ∃ p, nodes[i]? = some p ∧
      b.min_lat ≤ p.lat ∧ p.lat ≤ b.max_lat ∧ b.min_lon ≤ p.lon ∧ p.lon ≤ b.max_lon) ∧
    (∀ r, get_mesh_query nodes elements b = .ok r →
      ∀ i ∈ r.nodeIdx, ∃ p, nodes[i]? = some p ∧
        b.min_lat ≤ p.lat ∧ p.lat ≤ b.max_lat ∧ b.min_lon ≤ p.lon ∧ p.lon ≤ b.max_lon) := by
  have key : ∀ i : ℕ, i ∈ node_indices nodes b ↔ ∃ p, nodes[i]? = some p ∧
      b.min_lat ≤ p.lat ∧ p.lat ≤ b.max_lat ∧ b.min_lon ≤ p.lon ∧ p.lon ≤ b.max_lon := by
    intro i
    rw [mem_node_indices]
    constructor
    · rintro ⟨p, hp, hm⟩; exact ⟨p, hp, bbox_mask_iff.mp hm⟩
    · rintro ⟨p, hp, hm⟩; exact ⟨p, hp, bbox_mask_iff.mpr hm⟩
  refine ⟨key, fun r hr i hi => ?_⟩
  obtain ⟨_, _, rfl⟩ := get_mesh_query_ok_iff.mp hr
  exact (key i).mp hi

/-- Witness for `node_selection_closed_box` at a concrete one-node mesh and
a concrete validated box: position 0 is selected and its coordinates lie in
the box. -/
theorem node_selection_closed_box_witness :
    (0 ∈ node_indices [⟨10, 20⟩] ⟨0, 30, 0, 30⟩ ↔
      ∃ p, ([⟨10, 20⟩] : List Node)[0]? = some p ∧
        (0 : ℚ) ≤ p.lat ∧ p.lat ≤ 30 ∧ (0 : ℚ) ≤ p.lon ∧ p.lon ≤ 30) :=
  (node_selection_closed_box [⟨10, 20⟩] [] ⟨0, 30, 0, 30⟩ (by norm_num)).1 0

/-- Claim C4: for a query with at least one matching node, the
original→compact map (`node_idx_mapping`, the dictionary of line 114
enumerating `node_indices` in ascending order) restricted to the selected
indices is injective, its image is exactly `[0, k)`, and it preserves the
relative ascending sorted-index order of the selected nodes. -/
theorem index_compaction_bijection (nodes : List Node) (b : BBox)
    (hk : 1 ≤ (node_indices nodes b).length) :
    (∀ i ∈ node_indices nodes b, ∀ j ∈ node_indices nodes b,
      node_idx_mapping (node_indices nodes b) i = node_idx_mapping (node_indices nodes b) j →
        i = j) ∧
    (∀ i ∈ node_indices nodes b,
      node_idx_mapping (node_indices nodes b) i < (node_indices nodes b).length) ∧
    (∀ m < (node_indices nodes b).length,
      ∃ i ∈ node_indices nodes b, node_idx_mapping (node_indices nodes b) i = m) ∧
    (∀ i ∈ node_indices nodes b, ∀ j ∈ node_indices nodes b, i < j →
      node_idx_mapping (node_indices nodes b) i < node_idx_mapping (node_indices nodes b) j) := by
  clear hk
  set sel := node_indices nodes b with hsel
  refine ⟨?_, ?_, ?_, ?_⟩
  · intro i hi j hj hij
    exact (List.indexOf_inj hi hj).mp hij
  · intro i hi
    exact List.indexOf_lt_length.mpr hi
  · intro m hm
    refine ⟨sel.get ⟨m, hm⟩, sel.get_mem _ _, ?_⟩
    unfold node_idx_mapping
    exact List.get_indexOf (node_indices_nodup nodes b) ⟨m, hm⟩
  · intro i hi j hj hij
    unfold node_idx_mapping
    have hilt : sel.indexOf i < sel.length := List.indexOf_lt_length.mpr hi
    have hjlt : sel.indexOf j < sel.length := List.indexOf_lt_length.mpr hj
    have hgi : sel.get ⟨sel.indexOf i, hilt⟩ = i := List.indexOf_get hilt
    have hgj : sel.get ⟨sel.indexOf j, hjlt⟩ = j := List.indexOf_get hjlt
    rcases Nat.lt_trichotomy (sel.indexOf i) (sel.indexOf j) with h | h | h
    · exact h
    · exfalso
      have : i = j := by rw [← hgi, ← hgj]; exact congrArg sel.get (Fin.ext h)
      omega
    · exfalso
      have hlt : sel.get ⟨sel.indexOf j, hjlt⟩ < sel.get ⟨sel.indexOf i, hilt⟩ :=
        (node_indices_sorted nodes b).rel_get_of_lt h
      rw [hgi, hgj] at hlt
      omega

/-- Witness for `index_compaction_bijection`: a concrete two-node mesh and
box selecting both nodes; compact index 1 is attained by some selected
node. -/
theorem index_compaction_bijection_witness :
    ∃ i ∈ node_indices [⟨1, 1⟩, ⟨2, 2⟩] ⟨0, 5, 0, 5⟩,
      node_idx_mapping (node_indices [⟨1, 1⟩, ⟨2, 2⟩] ⟨0, 5, 0, 5⟩) i = 1 :=
  (index_compaction_bijection [⟨1, 1⟩, ⟨2, 2⟩] ⟨0, 5, 0, 5⟩ (by decide)).2.2.1 1 (by decide)

/-- Claim C3: in a successful bounding-box query, a stored triangle enters
`valid_elements` iff all three of its vertices are selected; each matching
stored triangle appears exactly once (its multiplicity is preserved, and
non-matching triangles are dropped entirely); the returned triangles are
exactly the matching ones remapped through the original→compact map; and
every returned triangle's three indices lie in `[0, returned_node_count)`. -/
theorem triangle_selection_spec (nodes : List Node) (elements : List Tri) (b : BBox)
    (r : MeshResult) (h : get_mesh_query nodes elements b = .ok r) :
    (∀ t, t ∈ valid_elements (node_indices nodes b) elements ↔
      t ∈ elements ∧ t.a ∈ node_indices nodes b ∧ t.b ∈ node_indices nodes b ∧
        t.c ∈ node_indices nodes b) ∧
    (∀ t, (valid_elements (node_indices nodes b) elements).count t =
      if tri_mask (node_indices nodes b) t then elements.count t else 0) ∧
    r.triangles = (valid_elements (node_indices nodes b) elements).map
      (remap_tri (node_indices nodes b)) ∧
    (∀ t ∈ r.triangles,
      t.a < r.nodeIdx.length ∧ t.b < r.nodeIdx.length ∧ t.c < r.nodeIdx.length) := by
  obtain ⟨-, -, rfl⟩ := get_mesh_query_ok_iff.mp h
  set sel := node_indices nodes b with hsel
  have hmask : ∀ t : Tri, tri_mask sel t = true ↔
      t.a ∈ sel ∧ t.b ∈ sel ∧ t.c ∈ sel := by
    intro t
    unfold tri_mask
    simp [and_assoc]
  refine ⟨?_, ?_, rfl, ?_⟩
  · intro t
    unfold valid_elements
    rw [List.mem_filter, hmask]
  · intro t
    by_cases hm : tri_mask sel t = true
    · rw [if_pos hm]
      exact List.count_filter hm
    · rw [if_neg hm]
      refine List.count_eq_zero.mpr fun hc => ?_
      exact hm ((List.mem_filter.mp hc).2)
  · intro t ht
    obtain ⟨t0, ht0, rfl⟩ := List.mem_map.mp ht
    have hsel0 := (List.mem_filter.mp ht0).2
    rw [hmask] at hsel0
    exact ⟨List.indexOf_lt_length.mpr hsel0.1, List.indexOf_lt_length.mpr hsel0.2.1,
      List.indexOf_lt_length.mpr hsel0.2.2⟩

/-- Witness for `triangle_selection_spec` at a concrete three-node mesh with
one stored triangle, queried with a box selecting all nodes: the triangle is
kept, appears once, and its remapped indices are in range. -/
theorem triangle_selection_spec_witness :
    (valid_elements (node_indices [⟨0, 0⟩, ⟨0, 1⟩, ⟨1, 0⟩] ⟨0, 2, 0, 2⟩)
        [⟨0, 1, 2⟩]).count ⟨0, 1, 2⟩ =
      if tri_mask (node_indices [⟨0, 0⟩, ⟨0, 1⟩, ⟨1, 0⟩] ⟨0, 2, 0, 2⟩) ⟨0, 1, 2⟩ then
        ([⟨0, 1, 2⟩] : List Tri).count ⟨0, 1, 2⟩
      else 0 :=
  (triangle_selection_spec [⟨0, 0⟩, ⟨0, 1⟩, ⟨1, 0⟩] [⟨0, 1, 2⟩] ⟨0, 2, 0, 2⟩
    ⟨node_indices [⟨0, 0⟩, ⟨0, 1⟩, ⟨1, 0⟩] ⟨0, 2, 0, 2⟩,
      (valid_elements (node_indices [⟨0, 0⟩, ⟨0, 1⟩, ⟨1, 0⟩] ⟨0, 2, 0, 2⟩)
        [⟨0, 1, 2⟩]).map (remap_tri (node_indices [⟨0, 0⟩, ⟨0, 1⟩, ⟨1, 0⟩] ⟨0, 2, 0, 2⟩))⟩
    (by rfl)).2.1 ⟨0, 1, 2⟩

/-! ### Helper lemmas: constituent index lookup -/

/-- The expected output of the `_get_ttide_indices` loop from position
`start` onward: the mapped index for standard names, the running position
for unmapped ones. -/
def ttide_expected : List String → ℕ → List ℕ
  | [], _ => []
  | n :: rest, start => (lookupStandard n).getD start :: ttide_expected rest (start + 1)

theorem foldl_ttide_step (names : List String) (acc : List ℕ) :
    names.foldl ttide_step acc = acc ++ ttide_expected names acc.length := by
  induction names generalizing acc with
  | nil => simp [ttide_expected]
  | cons n rest ih =>
    rw [List.foldl_cons]
    cases h : lookupStandard n with
    | some i =>
      have hstep : ttide_step acc n = acc ++ [i] := by unfold ttide_step; rw [h]
      rw [hstep, ih, ttide_expected, h]
      simp only [Option.getD_some, List.length_append, List.length_singleton,
        List.append_assoc, List.singleton_append]
    | none =>
      have hstep : ttide_step acc n = acc ++ [acc.length] := by unfold ttide_step; rw [h]
      rw [hstep, ih, ttide_expected, h]
      simp only [Option.getD_none, List.length_append, List.length_singleton,
        List.append_assoc, List.singleton_append]

theorem ttide_expected_getElem? (names : List String) (s j : ℕ) :
    (ttide_expected names s)[j]? =
      (names[j]?).map (fun nm => (lookupStandard nm).getD (s + j)) := by
  induction names generalizing s j with
  | nil => simp [ttide_expected]
  | cons n rest ih =>
    cases j with
    | zero =>
      rw [ttide_expected, List.getElem?_cons_zero, List.getElem?_cons_zero]
      rfl
    | succ j =>
      rw [ttide_expected, List.getElem?_cons_succ, List.getElem?_cons_succ, ih (s + 1) j]
      have harith : s + 1 + j = s + (j + 1) := by omega
      rw [harith]

theorem ttide_expected_length (names : List String) (s : ℕ) :
    (ttide_expected names s).length = names.length := by
  induction names generalizing s with
  | nil => rfl
  | cons n rest ih => rw [ttide_expected]; simp [ih]

/-- Claim C8: `_get_ttide_indices` is total (it raises for no list of
constituent names) and returns one index per input name: a name present in
the standard 8-constituent mapping gets its mapped ttide index, and a name
absent from the mapping gets the sequential fallback index equal to its
0-based position in the input list (after a printed warning, never a hard
failure). -/
theorem get_ttide_indices_spec (constituent_names : List String) :
    (get_ttide_indices constituent_names).length = constituent_names.length ∧
    ∀ j nm, constituent_names[j]? = some nm →
      (get_ttide_indices constituent_names)[j]? = some ((lookupStandard nm).getD j) := by
  have hfold : get_ttide_indices constituent_names = ttide_expected constituent_names 0 := by
    unfold get_ttide_indices
    rw [foldl_ttide_step]
    rfl
  constructor
  · rw [hfold, ttide_expected_length]
  · intro j nm hj
    rw [hfold, ttide_expected_getElem?, hj]
    simp

/-- Witness for `get_ttide_indices_spec`: for the input `["M2", "Q1"]`, the
mapped name `"M2"` gets ttide index 0 and the unmapped name `"Q1"` gets the
sequential fallback index 1, its position in the input list. -/
theorem get_ttide_indices_spec_witness :
    (get_ttide_indices ["M2", "Q1"])[0]? = some 0 ∧
    (get_ttide_indices ["M2", "Q1"])[1]? = some 1 := by
  have h0 := (get_ttide_indices_spec ["M2", "Q1"]).2 0 "M2" rfl
  have h1 := (get_ttide_indices_spec ["M2", "Q1"]).2 1 "Q1" rfl
  refine ⟨?_, ?_⟩
  · rw [h0]; rfl
  · rw [h1]; rfl

/-! ### Helper lemmas: harmonic synthesis -/

theorem foldl_pair_add (g h : ℕ → ℝ) (n : ℕ) (a b : ℝ) :
    (List.range n).foldl (fun acc i => (acc.1 + g i, acc.2 + h i)) (a, b) =
      (a + ∑ i ∈ Finset.range n, g i, b + ∑ i ∈ Finset.range n, h i) := by
  induction n with
  | zero => simp
  | succ n ih =>
    rw [List.range_succ, List.foldl_append, ih]
    simp [Finset.sum_range_succ, add_assoc]

/-- Claim C1: `predict_currents` returns, at every node, exactly the
harmonic sums
`u = Σᵢ fᵢ · u_amp[node,i] · cos(vᵢ + ωᵢ·t + uᵢ − deg2rad(u_phase[node,i]))`
and
`v = Σᵢ fᵢ · v_amp[node,i] · cos(vᵢ + ωᵢ·t + uᵢ − deg2rad(v_phase[node,i]))`,
where `vᵢ = 2π·(corr i).v` and `uᵢ = 2π·(corr i).u` are the provider's
phase angles in radians, `fᵢ` its amplitude factor, and `t` the seconds
from the 2000-01-01T00:00:00Z reference epoch — the same per-constituent
triple broadcast to every node; in particular, a single constituent with
amplitude 1 m/s, phase 0°, nodal correction `(v=0, u=0, f=1)`, evaluated at
the reference epoch, gives `u_velocity = 1`. -/
theorem predict_currents_formula (n_const : ℕ)
    (u_amp v_amp u_phase v_phase : ℕ → ℕ → ℝ) (tidefreqs : ℕ → ℝ)
    (corr : ℕ → NodalCorr) (t_seconds : ℝ) (node : ℕ) :
    (predict_currents n_const u_amp v_amp u_phase v_phase tidefreqs corr t_seconds node =
      (∑ i ∈ Finset.range n_const, (corr i).f * u_amp node i *
          Real.cos (2 * Real.pi * (corr i).v + tidefreqs i * t_seconds +
            2 * Real.pi * (corr i).u - deg2rad (u_phase node i)),
       ∑ i ∈ Finset.range n_const, (corr i).f * v_amp node i *
          Real.cos (2 * Real.pi * (corr i).v + tidefreqs i * t_seconds +
            2 * Real.pi * (corr i).u - deg2rad (v_phase node i)))) ∧
    (predict_currents 1 (fun _ _ => 1) (fun _ _ => 1) (fun _ _ => 0) (fun _ _ => 0)
        tidefreqs (fun _ => ⟨0, 0, 1⟩) 0 node).1 = 1 := by
  constructor
  · rw [predict_currents, foldl_pair_add]
    simp [const_term_u, const_term_v]
  · rw [predict_currents, foldl_pair_add]
    simp [const_term_u, deg2rad, Real.cos_zero]

/-- Claim C9: the serving pipeline is deterministic — two runs on an
identical mesh-store snapshot (coordinates, connectivity, constituent
amplitudes/phases/frequencies), identical bounding box, instant and
reference latitude, with the nodal-correction provider a pure function,
produce identical compact node orderings, triangle lists and velocity
arrays: the per-node summation follows the fixed constituent ordering of
the `for i in range(len(constituent_names))` loop, so the result is a pure
function of the inputs. -/
theorem serve_request_deterministic
    (nodes nodes2 : List Node) (elements elements2 : List Tri)
    (u_amp u_amp2 v_amp v_amp2 u_phase u_phase2 v_phase v_phase2 : ℕ → ℕ → ℝ)
    (tidefreqs tidefreqs2 : ℕ → ℝ) (n_const n_const2 : ℕ)
    (provider provider2 : ℝ → ℝ → ℕ → NodalCorr)
    (t_seconds t_seconds2 lat lat2 : ℝ) (b b2 : BBox)
    (hnodes : nodes = nodes2) (helements : elements = elements2)
    (hua : u_amp = u_amp2) (hva : v_amp = v_amp2)
    (hup : u_phase = u_phase2) (hvp : v_phase = v_phase2)
    (hfreq : tidefreqs = tidefreqs2) (hnc : n_const = n_const2)
    (hprov : provider = provider2) (ht : t_seconds = t_seconds2)
    (hlat : lat = lat2) (hb : b = b2) :
    serve_request nodes elements u_amp v_amp u_phase v_phase tidefreqs n_const
        provider t_seconds lat b =
      serve_request nodes2 elements2 u_amp2 v_amp2 u_phase2 v_phase2 tidefreqs2 n_const2
        provider2 t_seconds2 lat2 b2 := by
  subst hnodes helements hua hva hup hvp hfreq hnc hprov ht hlat hb
  rfl

/-- Witness for `serve_request_deterministic` at a concrete one-node mesh,
constant constituent data and a concrete box: the two (identical) runs
agree. -/
theorem serve_request_deterministic_witness :
    serve_request [⟨1, 1⟩] [⟨0, 0, 0⟩] (fun _ _ => 1) (fun _ _ => 1)
        (fun _ _ => 0) (fun _ _ => 0) (fun _ => 1) 1 (fun _ _ _ => ⟨0, 0, 1⟩) 0 55
        ⟨0, 5, 0, 5⟩ =
      serve_request [⟨1, 1⟩] [⟨0, 0, 0⟩] (fun _ _ => 1) (fun _ _ => 1)
        (fun _ _ => 0) (fun _ _ => 0) (fun _ => 1) 1 (fun _ _ _ => ⟨0, 0, 1⟩) 0 55
        ⟨0, 5, 0, 5⟩ :=
  serve_request_deterministic _ _ _ _ _ _ _ _ _ _ _ _ _ _ _ _ _ _ _ _ _ _ _ _
    rfl rfl rfl rfl rfl rfl rfl rfl rfl rfl rfl rfl

/-! ### Helper lemmas: element remapping -/

theorem foldl_set_length (l : List (ℕ × ℕ)) (acc : List ℤ) :
    (l.foldl (fun inv p => inv.set p.2 (p.1 : ℤ)) acc).length = acc.length := by
  induction l generalizing acc with
  | nil => rfl
  | cons p l ih => rw [List.foldl_cons, ih, List.length_set]

theorem inverse_mapping_length (spatial_sort_idx : List ℕ) :
    (inverse_mapping spatial_sort_idx).length = spatial_sort_idx.length := by
  unfold inverse_mapping
  rw [foldl_set_length, List.length_replicate]

theorem foldl_set_entries (bound : ℤ) (l : List (ℕ × ℕ)) (acc : List ℤ)
    (hacc : ∀ x ∈ acc, 0 ≤ x ∧ x < bound)
    (hl : ∀ p ∈ l, (p.1 : ℤ) < bound) :
    ∀ x ∈ l.foldl (fun inv p => inv.set p.2 (p.1 : ℤ)) acc, 0 ≤ x ∧ x < bound := by
  induction l generalizing acc with
  | nil => exact hacc
  | cons p l ih =>
    rw [List.foldl_cons]
    refine ih _ (fun x hx => ?_) (fun q hq => hl q (List.mem_cons_of_mem p hq))
    rcases List.mem_or_eq_of_mem_set hx with hmem | rfl
    · exact hacc x hmem
    · exact ⟨Int.natCast_nonneg _, hl p (List.mem_cons_self p l)⟩

theorem inverse_mapping_entries (spatial_sort_idx : List ℕ) :
    ∀ x ∈ inverse_mapping spatial_sort_idx,
      0 ≤ x ∧ x < (spatial_sort_idx.length : ℤ) := by
  unfold inverse_mapping
  cases hlen : spatial_sort_idx.length with
  | zero =>
    rw [List.length_eq_zero] at hlen
    subst hlen
    intro x hx
    simp at hx
  | succ m =>
    refine foldl_set_entries _ _ _ (fun x hx => ?_) (fun p hp => ?_)
    · rw [List.eq_of_mem_replicate hx]
      omega
    · have := List.fst_lt_of_mem_enum hp
      rw [hlen] at this
      exact_mod_cast this

theorem np_take_mem (a : List ℤ) (e : ℤ) (h1 : -(a.length : ℤ) ≤ e)
    (h2 : e < (a.length : ℤ)) : np_take a e ∈ a := by
  unfold np_take
  split_ifs with h
  · have hlt : ((a.length : ℤ) + e).toNat < a.length := by omega
    rw [List.getD_eq_getElem a 0 hlt]
    exact List.getElem_mem hlt
  · have hlt : e.toNat < a.length := by omega
    rw [List.getD_eq_getElem a 0 hlt]
    exact List.getElem_mem hlt

theorem npOOB_false_iff (n : ℕ) (e : ℤ) :
    npOOB n e = false ↔ -(n : ℤ) ≤ e ∧ e < (n : ℤ) := by
  unfold npOOB
  simp only [Bool.or_eq_false_iff, decide_eq_false_iff_not, not_lt, not_le]

/-- Claim C7: `remap_elements` gathers every vertex index through the
inverse map `original→new`; whenever the gather is defined and produces a
remapped index outside `[0, N)` the builder fails (the `ValueError` of line
217, the spec's `IndexOutOfRange`) and returns no output, and on success
every remapped triangle index lies in `[0, N)`, `N` the node count. -/
theorem remap_elements_range_check (spatial_sort_idx : List ℕ) (elements_nc : List RawTri) :
    (∀ out, remap_elements elements_nc spatial_sort_idx = .ok out →
      ∀ t ∈ out, (0 ≤ t.a ∧ t.a < (spatial_sort_idx.length : ℤ)) ∧
        (0 ≤ t.b ∧ t.b < (spatial_sort_idx.length : ℤ)) ∧
        (0 ≤ t.c ∧ t.c < (spatial_sort_idx.length : ℤ))) ∧
    ((∀ t ∈ elements_nc, ∀ e ∈ rawEntries t,
        npOOB (inverse_mapping spatial_sort_idx).length e = false) →
      (∃ t ∈ elements_nc, ∃ e ∈ rawEntries t,
        np_take (inverse_mapping spatial_sort_idx) e < 0 ∨
          (spatial_sort_idx.length : ℤ) ≤ np_take (inverse_mapping spatial_sort_idx) e) →
      remap_elements elements_nc spatial_sort_idx = .error .invalidRemapped) := by
  constructor
  · intro out hout t ht
    rw [remap_elements] at hout
    split_ifs at hout with h1 h2 h3
    obtain rfl : gather_elements elements_nc (inverse_mapping spatial_sort_idx) = out := by
      injection hout
    have hok : ∀ s ∈ gather_elements elements_nc (inverse_mapping spatial_sort_idx),
        ∀ e ∈ rawEntries s,
        ¬(decide (e < 0) || decide ((spatial_sort_idx.length : ℤ) ≤ e)) = true := by
      intro s hs e he
      have hall := List.any_eq_false.mp (Bool.of_not_eq_true h3) s hs
      exact List.any_eq_false.mp (Bool.of_not_eq_true hall) e he
    have ha := hok t ht t.a (by simp [rawEntries])
    have hb := hok t ht t.b (by simp [rawEntries])
    have hc := hok t ht t.c (by simp [rawEntries])
    simp only [Bool.or_eq_true, decide_eq_true_eq, not_or, not_lt, not_le] at ha hb hc
    exact ⟨⟨ha.1, ha.2⟩, ⟨hb.1, hb.2⟩, ⟨hc.1, hc.2⟩⟩
  · intro hoob hbad
    obtain ⟨t, ht, e, he, hout⟩ := hbad
    rw [remap_elements]
    have hOOBfalse : elements_nc.any
        (fun t => (rawEntries t).any (npOOB (inverse_mapping spatial_sort_idx).length)) = false := by
      rw [List.any_eq_false]
      intro s hs
      rw [Bool.not_eq_true, List.any_eq_false]
      intro x hx
      simp [hoob s hs x hx]
    rw [if_neg (by simp [hOOBfalse])]
    have hne : gather_elements elements_nc (inverse_mapping spatial_sort_idx) ≠ [] := by
      unfold gather_elements
      simp only [ne_eq, List.map_eq_nil_iff]
      rintro rfl
      cases ht
    rw [if_neg hne]
    have hany : (gather_elements elements_nc (inverse_mapping spatial_sort_idx)).any
        (fun s => (rawEntries s).any
          (fun x => decide (x < 0) || decide ((spatial_sort_idx.length : ℤ) ≤ x))) = true := by
      rw [List.any_eq_true]
      refine ⟨⟨np_take (inverse_mapping spatial_sort_idx) t.a,
        np_take (inverse_mapping spatial_sort_idx) t.b,
        np_take (inverse_mapping spatial_sort_idx) t.c⟩,
        List.mem_map_of_mem _ ht, ?_⟩
      rw [List.any_eq_true]
      rcases (by simpa [rawEntries] using he : e = t.a ∨ e = t.b ∨ e = t.c) with rfl | rfl | rfl
      · exact ⟨np_take (inverse_mapping spatial_sort_idx) t.a,
          by simp [rawEntries], by simpa using hout⟩
      · exact ⟨np_take (inverse_mapping spatial_sort_idx) t.b,
          by simp [rawEntries], by simpa using hout⟩
      · exact ⟨np_take (inverse_mapping spatial_sort_idx) t.c,
          by simp [rawEntries], by simpa using hout⟩
    rw [if_pos hany]

/-- Witness for `remap_elements_range_check`: remapping the single triangle
`(0, 1, 0)` over the identity permutation `[0, 1]` succeeds and its remapped
indices lie in `[0, 2)`. -/
theorem remap_elements_range_check_witness :
    (0 ≤ (0 : ℤ) ∧ (0 : ℤ) < ((2 : ℕ) : ℤ)) ∧
      (0 ≤ (1 : ℤ) ∧ (1 : ℤ) < ((2 : ℕ) : ℤ)) ∧
      (0 ≤ (0 : ℤ) ∧ (0 : ℤ) < ((2 : ℕ) : ℤ)) := by
  exact (remap_elements_range_check [0, 1] [⟨0, 1, 0⟩]).1 [⟨0, 1, 0⟩] (by rfl)
    ⟨0, 1, 0⟩ (by simp)

/-- Counterexample to claim C10 as stated: over the (identity) permutation
`[0]` of length 1, the empty element array — whose entries all lie in
`[-1, 1)` vacuously — still makes `remap_elements` raise: with zero
elements, `elements_sorted.min()` on line 216 is a reduction over a
zero-size array and raises `ValueError` before the validation can run. -/
theorem remap_elements_no_raise_counterexample :
    ([0] : List ℕ).Perm (List.range 1) ∧
    (∀ t ∈ ([] : List RawTri), ∀ e ∈ rawEntries t, -(1 : ℤ) ≤ e ∧ e < 1) ∧
    remap_elements [] [0] = .error .emptyReduction :=
  ⟨by decide, by simp, by rfl⟩

/-- Claim C10 (amended): `remap_elements` never raises for any NONEMPTY
element array over a permutation of length `N` whose entries all lie in
`[-N, N)`: a negative entry `e` (such as the `-1` produced by the
unconditional 1-based→0-based subtraction of `convert_to_zarr` line 286
applied to an already 0-based entry 0) is silently wrapped by numpy fancy
indexing to `inverse_mapping[N + e]`, a value in `[0, N)`, so the
post-remap validation branch never raises for such inputs and the
malformed connectivity goes unreported. (The empty element array is the
one exception: there the `.min()` reduction itself raises.) -/
theorem remap_elements_no_raise (N : ℕ) (spatial_sort_idx : List ℕ)
    (elements_nc : List RawTri)
    (hperm : spatial_sort_idx.Perm (List.range N))
    (hne : elements_nc ≠ [])
    (hentries : ∀ t ∈ elements_nc, ∀ e ∈ rawEntries t, -(N : ℤ) ≤ e ∧ e < N) :
    remap_elements elements_nc spatial_sort_idx =
      .ok (gather_elements elements_nc (inverse_mapping spatial_sort_idx)) ∧
    (∀ e : ℤ, -(N : ℤ) ≤ e → e < 0 →
      np_take (inverse_mapping spatial_sort_idx) e =
        (inverse_mapping spatial_sort_idx).getD ((N : ℤ) + e).toNat 0) ∧
    (∀ e : ℤ, -(N : ℤ) ≤ e → e < N →
      0 ≤ np_take (inverse_mapping spatial_sort_idx) e ∧
        np_take (inverse_mapping spatial_sort_idx) e < (N : ℤ)) := by
  have hlen : spatial_sort_idx.length = N := by
    rw [hperm.length_eq, List.length_range]
  have hinvlen : (inverse_mapping spatial_sort_idx).length = N := by
    rw [inverse_mapping_length, hlen]
  have hrange : ∀ e : ℤ, -(N : ℤ) ≤ e → e < N →
      0 ≤ np_take (inverse_mapping spatial_sort_idx) e ∧
        np_take (inverse_mapping spatial_sort_idx) e < (N : ℤ) := by
    intro e h1 h2
    have hmem : np_take (inverse_mapping spatial_sort_idx) e ∈
        inverse_mapping spatial_sort_idx := by
      refine np_take_mem _ e ?_ ?_ <;> rw [hinvlen] <;> omega
    have := inverse_mapping_entries spatial_sort_idx _ hmem
    rw [hlen] at this
    exact this
  refine ⟨?_, ?_, hrange⟩
  · rw [remap_elements]
    have hoobFalse : elements_nc.any (fun t =>
        (rawEntries t).any (npOOB (inverse_mapping spatial_sort_idx).length)) = false := by
      rw [List.any_eq_false]
      intro t ht
      rw [Bool.not_eq_true, List.any_eq_false]
      intro e he
      have := hentries t ht e he
      simp only [Bool.not_eq_true]
      rw [npOOB_false_iff, hinvlen]
      omega
    rw [if_neg (by simp [hoobFalse])]
    have hgne : gather_elements elements_nc (inverse_mapping spatial_sort_idx) ≠ [] := by
      unfold gather_elements
      simpa [List.map_eq_nil_iff] using hne
    rw [if_neg hgne]
    have hvalid : (gather_elements elements_nc (inverse_mapping spatial_sort_idx)).any
        (fun t => (rawEntries t).any
          (fun e => decide (e < 0) || decide ((spatial_sort_idx.length : ℤ) ≤ e))) = false := by
      rw [List.any_eq_false]
      intro s hs
      rw [Bool.not_eq_true, List.any_eq_false]
      intro x hx
      obtain ⟨t, ht, rfl⟩ := List.mem_map.mp hs
      have hx3 : x = np_take (inverse_mapping spatial_sort_idx) t.a ∨
          x = np_take (inverse_mapping spatial_sort_idx) t.b ∨
          x = np_take (inverse_mapping spatial_sort_idx) t.c := by
        simpa [rawEntries] using hx
      have hb : 0 ≤ x ∧ x < (N : ℤ) := by
        rcases hx3 with rfl | rfl | rfl
        · exact hrange t.a (hentries t ht t.a (by simp [rawEntries])).1
            (hentries t ht t.a (by simp [rawEntries])).2
        · exact hrange t.b (hentries t ht t.b (by simp [rawEntries])).1
            (hentries t ht t.b (by simp [rawEntries])).2
        · exact hrange t.c (hentries t ht t.c (by simp [rawEntries])).1
            (hentries t ht t.c (by simp [rawEntries])).2
      simp only [Bool.not_eq_true, Bool.or_eq_false_iff, decide_eq_false_iff_not, not_lt, not_le]
      rw [hlen]
      omega
    rw [if_neg (by simp [hvalid])]
  · intro e h1 h2
    unfold np_take
    rw [if_pos h2, hinvlen]

/-- Witness for `remap_elements_no_raise`: the single triangle
`(-1, 0, 0)` — entry `-1` as produced by the 1-based→0-based subtraction on
an already 0-based entry `0` — over the length-1 permutation `[0]` is
remapped without any error being raised. -/
theorem remap_elements_no_raise_witness :
    remap_elements [⟨-1, 0, 0⟩] [0] =
      .ok (gather_elements [⟨-1, 0, 0⟩] (inverse_mapping [0])) :=
  (remap_elements_no_raise 1 [0] [⟨-1, 0, 0⟩] (by decide) (by decide) (by decide)).1

end ActualCurrents
